import Mathlib

/-!
Shallow embedding of `src/find-undef-syms.cpp` (termux-tools).

The program maps each input file into memory and scans it as an ELF
object: `parse_file` validates the ELF identification bytes and
dispatches on the class byte to `check_symbols`, a template
instantiated at the 32-bit or 64-bit ELF structure widths, which
bounds-checks the section header table and walks it from index 1,
printing one `sym: %u` line per `SHT_SYMTAB` section.

Modelling conventions:
- a mapped file is a `List Nat` of bytes (each byte < 256 in practice;
  reads use `getD _ 0`), its length standing for `st_size`;
- `size_t` arithmetic is 64-bit, so every sum the source computes in
  `size_t` is taken `% 2 ^ 64`, and pointer arithmetic on the mapping
  reduces addresses `% 2 ^ 64` (`readLE`);
- multi-byte ELF fields are little-endian (the program rejects any
  other encoding before reading them);
- `fprintf(stderr, ...)` diagnostics are modelled structurally by
  `ScanErr`, each constructor carrying the numeric quantities the
  corresponding format string prints; the file name, present in every
  such message, is an ambient per-file argument and is not part of the
  buffer-level model;
- the `printf("sym: %u\n", section_header_entry->st_name)` emission is
  modelled as the index of the section header it fires on.  (In the
  C++ source `st_name` is not a member of `Elf32_Shdr`/`Elf64_Shdr`;
  whatever that line was meant to print, the statement only has the
  section header record in scope, so the emission is a function of the
  section header alone and touches no symbol entry or string table
  byte.)
-/

/-- One mapped file: a byte buffer, read little-endian. -/
abbrev Buf := List Nat

/-- Little-endian read of `n` bytes starting at machine address `off`
relative to the mapping base; addresses wrap at the 64-bit word as the
source's pointer arithmetic does, and an out-of-range read (which the
source never guards at this level) yields the unspecified value 0. -/
def readLE (b : Buf) : Nat → Nat → Nat
  | _, 0 => 0
  | off, n + 1 => b.getD (off % 2 ^ 64) 0 + 256 * readLE b (off + 1) n

/-- Structure-width parameters of one `check_symbols` template
instantiation: the byte size of `Elf{32,64}_Shdr` and the offsets and
widths of the header and section-header fields the function reads. -/
structure ElfWidth where
  shdrSize : Nat
  shoffOff : Nat
  shoffBytes : Nat
  shnumOff : Nat
  shTypeOff : Nat
  shOffsetOff : Nat
  shOffsetBytes : Nat
  shSizeOff : Nat
  shSizeBytes : Nat
  deriving DecidableEq, Repr

/-- The `Elf32_Ehdr`/`Elf32_Shdr` instantiation: `sizeof(Elf32_Shdr) = 40`,
`e_shoff` is 4 bytes at offset 32, `e_shnum` 2 bytes at offset 48,
`sh_type` at 4, `sh_offset` 4 bytes at 16, `sh_size` 4 bytes at 20. -/
def elf32 : ElfWidth :=
  { shdrSize := 40, shoffOff := 32, shoffBytes := 4, shnumOff := 48
    shTypeOff := 4, shOffsetOff := 16, shOffsetBytes := 4
    shSizeOff := 20, shSizeBytes := 4 }

/-- The `Elf64_Ehdr`/`Elf64_Shdr` instantiation: `sizeof(Elf64_Shdr) = 64`,
`e_shoff` is 8 bytes at offset 40, `e_shnum` 2 bytes at offset 60,
`sh_type` at 4, `sh_offset` 8 bytes at 24, `sh_size` 8 bytes at 32. -/
def elf64 : ElfWidth :=
  { shdrSize := 64, shoffOff := 40, shoffBytes := 8, shnumOff := 60
    shTypeOff := 4, shOffsetOff := 24, shOffsetBytes := 8
    shSizeOff := 32, shSizeBytes := 8 }

/-- Byte size of the chosen-width ELF file header: `sizeof(Elf32_Ehdr) = 52`,
`sizeof(Elf64_Ehdr) = 64`, indexed by the `EI_CLASS` byte. -/
def ehdrSize : Nat → Nat
  | 1 => 52
  | 2 => 64
  | _ => 0

/-- The structured content of the diagnostics `check_symbols` and
`parse_file` print to stderr, each constructor carrying the numbers its
format string interpolates (the file name is ambient). -/
inductive ScanErr where
  /-- Printed as `Elf header for FILE would end at END but file size only SIZE`. -/
  | truncatedHeader (endByte fileSize : Nat)
  /-- Printed as `Section header for FILE would end at END but file size only SIZE`. -/
  | truncatedSectionTable (endByte fileSize : Nat)
  /-- Printed as `Dynamic section for FILE would end at END but file size only SIZE`. -/
  | truncatedSymbolTable (endByte fileSize : Nat)
  /-- Printed as `Not little endianness in FILE`. -/
  | notLittleEndian
  /-- Printed as `Incorrect bit value V in FILE`. -/
  | invalidClass (v : Nat)
  deriving DecidableEq, Repr

/-- ELF magic test from `parse_file`: `bytes[0] == 0x7F && bytes[1] == 'E'
&& bytes[2] == 'L' && bytes[3] == 'F'`. -/
def magicOk (b : Buf) : Bool :=
  b.getD 0 0 = 0x7f && b.getD 1 0 = 0x45 && b.getD 2 0 = 0x4c && b.getD 3 0 = 0x46

/-- The `e_shoff` field of the chosen-width header, as `check_symbols`
reads it. -/
def shoffOf (w : ElfWidth) (b : Buf) : Nat := readLE b w.shoffOff w.shoffBytes

/-- The `e_shnum` field of the chosen-width header, as `check_symbols`
reads it. -/
def shnumOf (w : ElfWidth) (b : Buf) : Nat := readLE b w.shnumOff 2

/-- The `sh_type` field of section header `i`. -/
def shTypeOf (w : ElfWidth) (b : Buf) (shoff i : Nat) : Nat :=
  readLE b (shoff + w.shdrSize * i + w.shTypeOff) 4

/-- The `sh_offset` field of section header `i`. -/
def shOffsetOf (w : ElfWidth) (b : Buf) (shoff i : Nat) : Nat :=
  readLE b (shoff + w.shdrSize * i + w.shOffsetOff) w.shOffsetBytes

/-- The `sh_size` field of section header `i`. -/
def shSizeOf (w : ElfWidth) (b : Buf) (shoff i : Nat) : Nat :=
  readLE b (shoff + w.shdrSize * i + w.shSizeOff) w.shSizeBytes

/-- The `size_t` value `section_header_entry->sh_offset +
section_header_entry->sh_size` for section `i` (wrapping at 64 bits). -/
def sectionEndOf (w : ElfWidth) (b : Buf) (shoff i : Nat) : Nat :=
  (shOffsetOf w b shoff i + shSizeOf w b shoff i) % 2 ^ 64

/-- The `size_t` value `elf_hdr->e_shoff + sizeof(ElfSectionHeaderType) *
elf_hdr->e_shnum` (wrapping at 64 bits). -/
def tableEndOf (w : ElfWidth) (b : Buf) : Nat :=
  (shoffOf w b + w.shdrSize * shnumOf w b) % 2 ^ 64

/-- The `for (unsigned int i = 1; i < e_shnum; i++)` loop body of
`check_symbols`, fuel-indexed: process `k` section headers starting at
index `i`.  For a `SHT_SYMTAB` (= 2) section it checks
`sh_offset + sh_size` against the file size, failing with the
`Dynamic section ... would end at` diagnostic, and otherwise emits the
`sym:` line (modelled as the section index). -/
def sectionLoop (w : ElfWidth) (b : Buf) (shoff len : Nat) :
    Nat → Nat → List Nat × Option ScanErr
  | _, 0 => ([], none)
  | i, k + 1 =>
    if shTypeOf w b shoff i = 2 then
      if sectionEndOf w b shoff i > len then
        ([], some (.truncatedSymbolTable (sectionEndOf w b shoff i) len))
      else
        let r := sectionLoop w b shoff len (i + 1) k
        (i :: r.1, r.2)
    else
      sectionLoop w b shoff len (i + 1) k

/-- Embedding of `check_symbols<...>(bytes, elf_file_size, file_name)`:
returns the `sym:` emissions in print order together with the diagnostic
when the function returns `false`. -/
def check_symbols (w : ElfWidth) (b : Buf) : List Nat × Option ScanErr :=
  let len := b.length
  if w.shdrSize > len then
    ([], some (.truncatedHeader w.shdrSize len))
  else
    let shoff := shoffOf w b
    let shnum := shnumOf w b
    let lastSectionHeaderByte := tableEndOf w b
    if lastSectionHeaderByte > len then
      ([], some (.truncatedSectionTable lastSectionHeaderByte len))
    else
      sectionLoop w b shoff len 1 (shnum - 1)

/-- Outcome of `parse_file` on one mapped buffer: the process exit
contribution (0 = success for this file, 1 = fatal), the stderr
diagnostic if any, and the stdout `sym:` emissions in order. -/
structure ParseResult where
  exitCode : Nat
  diag : Option ScanErr
  findings : List Nat
  deriving DecidableEq, Repr

/-- Embedding of the buffer-level part of `parse_file`: everything after
`fstat`/`mmap` succeed, with `st_size = b.length`.  Order of checks as in
the source: minimum size (`sizeof(Elf32_Ehdr) = 52`), ELF magic, the
`EI_DATA` byte (index 5) against little-endian, then dispatch on the
`EI_CLASS` byte (index 4) to the 32- or 64-bit `check_symbols`. -/
def parse_buffer (b : Buf) : ParseResult :=
  if b.length < 52 then ⟨0, none, []⟩
  else if !magicOk b then ⟨0, none, []⟩
  else if b.getD 5 0 ≠ 1 then ⟨0, some .notLittleEndian, []⟩
  else if b.getD 4 0 = 1 then
    match check_symbols elf32 b with
    | (fs, some e) => ⟨1, some e, fs⟩
    | (fs, none) => ⟨0, none, fs⟩
  else if b.getD 4 0 = 2 then
    match check_symbols elf64 b with
    | (fs, some e) => ⟨1, some e, fs⟩
    | (fs, none) => ⟨0, none, fs⟩
  else ⟨1, some (.invalidClass (b.getD 4 0)), []⟩

/-- Buffer-threading variant of `parse_buffer`: every step of the scan
is a read, and the value `msync` writes back to storage on the success
path (second component) is the mapping as the scan left it.  The
translation threads the buffer through each step; no step performs a
store (`check_symbols` only dereferences for reading, and the only
writes in `parse_file` are to locals), so each branch returns the
mapping it received. -/
def parse_buffer_sync (b : Buf) : ParseResult × Buf :=
  if b.length < 52 then (⟨0, none, []⟩, b)
  else if !magicOk b then (⟨0, none, []⟩, b)
  else if b.getD 5 0 ≠ 1 then (⟨0, some .notLittleEndian, []⟩, b)
  else if b.getD 4 0 = 1 then
    match check_symbols elf32 b with
    | (fs, some e) => (⟨1, some e, fs⟩, b)
    | (fs, none) => (⟨0, none, fs⟩, b)
  else if b.getD 4 0 = 2 then
    match check_symbols elf64 b with
    | (fs, some e) => (⟨1, some e, fs⟩, b)
    | (fs, none) => (⟨0, none, fs⟩, b)
  else (⟨1, some (.invalidClass (b.getD 4 0)), []⟩, b)

/-! ### Concrete buffers used as test inputs -/

/-- Little-endian encoding of `v` in `n` bytes. -/
def leB : Nat → Nat → List Nat
  | 0, _ => []
  | n + 1, v => (v % 256) :: leB n (v / 256)

/-- An `Elf64_Shdr` record for a `SHT_SYMTAB` section at file offset 192,
size 48 (two 24-byte symbol entries), entry size 24. -/
def shdrFoo : List Nat :=
  leB 4 0 ++ leB 4 2 ++ leB 8 0 ++ leB 8 0 ++ leB 8 192 ++ leB 8 48 ++
  leB 4 0 ++ leB 4 0 ++ leB 8 0 ++ leB 8 24

/-- An `Elf64_Sym` entry: `st_name = 1`, `st_info = 0x10` (binding GLOBAL,
type NOTYPE), `st_shndx = 0` (undefined) — the reportable shape. -/
def symFoo : List Nat := leB 4 1 ++ [0x10, 0] ++ leB 2 0 ++ leB 8 0 ++ leB 8 0

/-- An `Elf64_Sym` entry that is not reportable: `st_name = 1`,
`st_info = 0x12` (binding GLOBAL, type FUNC), `st_shndx = 1` (defined). -/
def symBar : List Nat := leB 4 1 ++ [0x12, 0] ++ leB 2 1 ++ leB 8 0 ++ leB 8 0

/-- The ELF identification and `Elf64_Ehdr` prefix shared by the 256-byte
64-bit test buffers: magic, class 2, little-endian, `e_shoff = 64`,
`e_shnum = 2`. -/
def ehdr64 (shoff : Nat) : List Nat :=
  [0x7f, 0x45, 0x4c, 0x46, 2, 1, 1, 0] ++ List.replicate 8 0 ++
  List.replicate 24 0 ++ leB 8 shoff ++ List.replicate 12 0 ++ leB 2 2 ++ leB 2 0

/-- A well-formed 64-bit little-endian object (256 bytes): the null
section, one symbol-table section of two entries, a null entry and one
NOTYPE/GLOBAL/undefined symbol whose name (string-table offset 1) is
`foo`. -/
def bufFoo : Buf :=
  ehdr64 64 ++ List.replicate 64 0 ++ shdrFoo ++ List.replicate 24 0 ++ symFoo ++
  ([0, 102, 111, 111, 0] ++ List.replicate 11 0)

/-- Identical to `bufFoo` in every header byte, but its sole non-null
symbol is defined (`st_shndx = 1`, type FUNC) and the string table
holds `bar`: it contains no reportable symbol. -/
def bufBar : Buf :=
  ehdr64 64 ++ List.replicate 64 0 ++ shdrFoo ++ List.replicate 24 0 ++ symBar ++
  ([0, 98, 97, 114, 0] ++ List.replicate 11 0)

/-- A 52-byte buffer with ELF magic, class byte 1 and data-encoding
byte 2 (big-endian). -/
def bufBE : Buf := [0x7f, 0x45, 0x4c, 0x46, 1, 2] ++ List.replicate 46 0

/-- A 52-byte buffer with ELF magic, class byte 2 (64-bit) and
little-endian encoding: too short for an `Elf64_Ehdr`. -/
def bufTrunc : Buf := [0x7f, 0x45, 0x4c, 0x46, 2, 1] ++ List.replicate 46 0

/-- A 52-byte buffer with ELF magic, little-endian encoding and the
out-of-range class byte 9. -/
def bufCls : Buf := [0x7f, 0x45, 0x4c, 0x46, 9, 1] ++ List.replicate 46 0

/-- A 200-byte 64-bit little-endian buffer whose declared section header
table wraps the 64-bit word: `e_shoff = 2 ^ 64 - 64`, `e_shnum = 2`. -/
def bufWrap : Buf :=
  [0x7f, 0x45, 0x4c, 0x46, 2, 1, 1, 0] ++ List.replicate 8 0 ++
  List.replicate 24 0 ++ leB 8 (2 ^ 64 - 64) ++ List.replicate 12 0 ++
  leB 2 2 ++ leB 2 0 ++ List.replicate 136 0

/-- An `Elf64_Shdr` for a `SHT_SYMTAB` section whose
`sh_offset + sh_size` wraps the 64-bit word: offset `2 ^ 64 - 8`,
size 16. -/
def shdrSymWrap : List Nat :=
  leB 4 0 ++ leB 4 2 ++ leB 8 0 ++ leB 8 0 ++ leB 8 (2 ^ 64 - 8) ++ leB 8 16 ++
  leB 4 0 ++ leB 4 0 ++ leB 8 0 ++ leB 8 24

/-- A 256-byte 64-bit buffer whose symbol-table section declares
`sh_offset = 2 ^ 64 - 8`, `sh_size = 16`: the true data range is far
outside the buffer but the wrapped sum is 8. -/
def bufSymWrap : Buf :=
  ehdr64 64 ++ List.replicate 64 0 ++ shdrSymWrap ++ List.replicate 64 0

/-- An `Elf64_Shdr` for a `SHT_SYMTAB` section at offset 1000 with size
1000, ending far past a 256-byte buffer. -/
def shdrSymBig : List Nat :=
  leB 4 0 ++ leB 4 2 ++ leB 8 0 ++ leB 8 0 ++ leB 8 1000 ++ leB 8 1000 ++
  leB 4 0 ++ leB 4 0 ++ leB 8 0 ++ leB 8 24

/-- A 256-byte 64-bit buffer with a genuinely truncated symbol-table
section (declared bytes 1000..2000). -/
def bufSymTrunc : Buf :=
  ehdr64 64 ++ List.replicate 64 0 ++ shdrSymBig ++ List.replicate 64 0

/-! ### Structural lemmas about the scan -/

/-- Unfolding equation for one step of the section-header loop. -/
theorem sectionLoop_succ (w : ElfWidth) (b : Buf) (shoff len i k : Nat) :
    sectionLoop w b shoff len i (k + 1) =
      if shTypeOf w b shoff i = 2 then
        if sectionEndOf w b shoff i > len then
          ([], some (.truncatedSymbolTable (sectionEndOf w b shoff i) len))
        else
          (i :: (sectionLoop w b shoff len (i + 1) k).1,
            (sectionLoop w b shoff len (i + 1) k).2)
      else sectionLoop w b shoff len (i + 1) k := rfl

/-- Unfolding equation for `check_symbols`. -/
theorem check_symbols_eq (w : ElfWidth) (b : Buf) :
    check_symbols w b =
      if w.shdrSize > b.length then
        ([], some (.truncatedHeader w.shdrSize b.length))
      else if tableEndOf w b > b.length then
        ([], some (.truncatedSectionTable (tableEndOf w b) b.length))
      else sectionLoop w b (shoffOf w b) b.length 1 (shnumOf w b - 1) := rfl

/-- The loop fails iff some examined section is a symbol table whose
wrapped end exceeds the file size; every loop error is the
`truncatedSymbolTable` diagnostic; every emission is at an index the
loop visited. -/
theorem sectionLoop_spec (w : ElfWidth) (b : Buf) (shoff len : Nat) :
    ∀ k i,
      ((sectionLoop w b shoff len i k).2 ≠ none ↔
        ∃ j, i ≤ j ∧ j < i + k ∧ shTypeOf w b shoff j = 2 ∧
          sectionEndOf w b shoff j > len)
      ∧ (∀ e, (sectionLoop w b shoff len i k).2 = some e →
          ∃ m l, e = .truncatedSymbolTable m l)
      ∧ (∀ j, j ∈ (sectionLoop w b shoff len i k).1 → i ≤ j) := by
  intro k
  induction k with
  | zero =>
    intro i
    refine ⟨by simp [sectionLoop]; omega, by simp [sectionLoop], by simp [sectionLoop]⟩
  | succ k ih =>
    intro i
    by_cases ht : shTypeOf w b shoff i = 2
    · by_cases he : sectionEndOf w b shoff i > len
      · rw [sectionLoop_succ, if_pos ht, if_pos he]
        refine ⟨?_, ?_, ?_⟩
        · simp only [ne_eq, Option.some_ne_none, not_false_eq_true, true_iff]
          exact ⟨i, le_refl i, by omega, ht, he⟩
        · intro e hee
          simp only [Option.some.injEq] at hee
          exact ⟨_, _, hee.symm⟩
        · simp
      · rw [sectionLoop_succ, if_pos ht, if_neg he]
        obtain ⟨ih1, ih2, ih3⟩ := ih (i + 1)
        refine ⟨?_, ih2, ?_⟩
        · simp only []
          rw [ih1]
          constructor
          · rintro ⟨j, hj1, hj2, hj3, hj4⟩
            exact ⟨j, by omega, by omega, hj3, hj4⟩
          · rintro ⟨j, hj1, hj2, hj3, hj4⟩
            have hne : j ≠ i := fun h => he (h ▸ hj4)
            exact ⟨j, by omega, by omega, hj3, hj4⟩
        · intro j hj
          simp only [List.mem_cons] at hj
          rcases hj with rfl | hj
          · exact le_refl j
          · have := ih3 j hj
            omega
    · rw [sectionLoop_succ, if_neg ht]
      obtain ⟨ih1, ih2, ih3⟩ := ih (i + 1)
      refine ⟨?_, ih2, ?_⟩
      · rw [ih1]
        constructor
        · rintro ⟨j, hj1, hj2, hj3, hj4⟩
          exact ⟨j, by omega, by omega, hj3, hj4⟩
        · rintro ⟨j, hj1, hj2, hj3, hj4⟩
          have hne : j ≠ i := fun h => ht (h ▸ hj3)
          exact ⟨j, by omega, by omega, hj3, hj4⟩
      · intro j hj
        have := ih3 j hj
        omega

/-- When both global bounds checks pass, `check_symbols` fails iff some
section header at index 1 ≤ j < `e_shnum` is a symbol table whose
wrapped data end exceeds the file size; its error is then the
`truncatedSymbolTable` diagnostic, and every emission is at index ≥ 1. -/
theorem check_symbols_spec (w : ElfWidth) (b : Buf)
    (h1 : w.shdrSize ≤ b.length) (h2 : tableEndOf w b ≤ b.length) :
    ((check_symbols w b).2 ≠ none ↔
      ∃ j, 1 ≤ j ∧ j < shnumOf w b ∧ shTypeOf w b (shoffOf w b) j = 2 ∧
        sectionEndOf w b (shoffOf w b) j > b.length)
    ∧ (∀ e, (check_symbols w b).2 = some e → ∃ m l, e = .truncatedSymbolTable m l)
    ∧ (∀ j, j ∈ (check_symbols w b).1 → 1 ≤ j) := by
  have hcs : check_symbols w b =
      sectionLoop w b (shoffOf w b) b.length 1 (shnumOf w b - 1) := by
    rw [check_symbols_eq, if_neg (by omega), if_neg (by omega)]
  obtain ⟨hl1, hl2, hl3⟩ := sectionLoop_spec w b (shoffOf w b) b.length (shnumOf w b - 1) 1
  rw [hcs]
  refine ⟨?_, hl2, hl3⟩
  rw [hl1]
  constructor
  · rintro ⟨j, hj1, hj2, hj3, hj4⟩
    exact ⟨j, hj1, by omega, hj3, hj4⟩
  · rintro ⟨j, hj1, hj2, hj3, hj4⟩
    exact ⟨j, hj1, by omega, hj3, hj4⟩

/-- When the first guard of `check_symbols` passes, any error it returns
is a `truncatedSectionTable` or `truncatedSymbolTable` diagnostic —
never `truncatedHeader`. -/
theorem check_symbols_err_shape (w : ElfWidth) (b : Buf)
    (h1 : w.shdrSize ≤ b.length) :
    ∀ e, (check_symbols w b).2 = some e →
      (∃ m l, e = .truncatedSectionTable m l) ∨
      ∃ m l, e = .truncatedSymbolTable m l := by
  intro e he
  rw [check_symbols_eq, if_neg (by omega)] at he
  by_cases h2 : tableEndOf w b > b.length
  · rw [if_pos h2] at he
    simp only [Option.some.injEq] at he
    exact Or.inl ⟨_, _, he.symm⟩
  · rw [if_neg h2] at he
    exact Or.inr
      ((sectionLoop_spec w b (shoffOf w b) b.length (shnumOf w b - 1) 1).2.1 e he)

/-- With valid magic, little-endian encoding and a recognized class
byte, `parse_buffer` is the class dispatch onto `check_symbols`. -/
theorem parse_buffer_dispatch (b : Buf) (w : ElfWidth) (h52 : 52 ≤ b.length)
    (hm : magicOk b = true) (h5 : b.getD 5 0 = 1)
    (hw : b.getD 4 0 = 1 ∧ w = elf32 ∨ b.getD 4 0 = 2 ∧ w = elf64) :
    parse_buffer b =
      ⟨if (check_symbols w b).2 = none then 0 else 1,
        (check_symbols w b).2, (check_symbols w b).1⟩ := by
  unfold parse_buffer
  rw [if_neg (by omega), if_neg (by simp [hm]), if_neg (not_not_intro h5)]
  rcases hw with ⟨h4, rfl⟩ | ⟨h4, rfl⟩
  · rw [if_pos h4]
    rcases hc : check_symbols elf32 b with ⟨fs, e⟩
    cases e <;> simp
  · rw [if_neg (by rw [h4]; decide), if_pos h4]
    rcases hc : check_symbols elf64 b with ⟨fs, e⟩
    cases e <;> simp

/-- With valid magic and a data-encoding byte other than 1, the scan
prints the endianness diagnostic, stops, and returns success with no
findings. -/
theorem parse_buffer_not_le (b : Buf) (h52 : 52 ≤ b.length)
    (hm : magicOk b = true) (h5 : b.getD 5 0 ≠ 1) :
    parse_buffer b = ⟨0, some .notLittleEndian, []⟩ := by
  unfold parse_buffer
  rw [if_neg (by omega), if_neg (by simp [hm]), if_pos h5]

/-! ### Claims -/

/-- C6: every buffer shorter than `sizeof(Elf32_Ehdr) = 52`, the minimum
possible ELF header size, is treated as not an ELF object and skipped:
success outcome, no diagnostic, no findings. -/
theorem claim6_short_skip (b : Buf) (h : b.length < 52) :
    parse_buffer b = ⟨0, none, []⟩ := by
  unfold parse_buffer
  rw [if_pos h]

/-- Witness for C6 at the empty buffer. -/
theorem claim6_witness : parse_buffer [] = ⟨0, none, []⟩ :=
  claim6_short_skip [] (by decide)

/-- C5: every buffer whose first four bytes are not the ELF magic is
silently skipped with a success outcome and no findings, regardless of
its remaining content (buffers under 52 bytes are skipped by the size
guard, all others by the magic test). -/
theorem claim5_nonmagic_skip (b : Buf) (h : magicOk b = false) :
    parse_buffer b = ⟨0, none, []⟩ := by
  unfold parse_buffer
  by_cases hl : b.length < 52
  · rw [if_pos hl]
  · rw [if_neg hl, if_pos (by simp [h])]

/-- Witness for C5 at a 52-byte all-zero buffer. -/
theorem claim5_witness : parse_buffer (List.replicate 52 0) = ⟨0, none, []⟩ :=
  claim5_nonmagic_skip (List.replicate 52 0) (by decide)

/-- C7: every buffer with valid ELF magic, little-endian encoding and a
class byte outside {1, 2} fails with the `Incorrect bit value`
diagnostic naming that byte, and the per-file result is non-success
(exit contribution 1). -/
theorem claim7_invalid_class (b : Buf) (h52 : 52 ≤ b.length)
    (hm : magicOk b = true) (h5 : b.getD 5 0 = 1)
    (h4a : b.getD 4 0 ≠ 1) (h4b : b.getD 4 0 ≠ 2) :
    parse_buffer b = ⟨1, some (.invalidClass (b.getD 4 0)), []⟩ := by
  unfold parse_buffer
  rw [if_neg (by omega), if_neg (by simp [hm]), if_neg (not_not_intro h5),
    if_neg h4a, if_neg h4b]

/-- Witness for C7 at a buffer with class byte 9. -/
theorem claim7_witness : parse_buffer bufCls = ⟨1, some (.invalidClass 9), []⟩ := by
  have h := claim7_invalid_class bufCls (by decide) (by decide) (by decide)
    (by decide) (by decide)
  exact h

/-- C2 counterexample: on a valid-magic buffer with data-encoding byte 2
the endianness diagnostic path is taken, yet the per-file outcome is
success (exit contribution 0), refuting the claimed non-success
outcome. -/
theorem claim2_counterexample :
    (parse_buffer bufBE).diag = some .notLittleEndian ∧
    (parse_buffer bufBE).exitCode = 0 := by
  constructor <;> decide

/-- C2 as amended: for every buffer with valid ELF magic whose
data-encoding byte is not 1, the scan prints the unsupported-endianness
diagnostic and stops without attempting any further parsing and with no
findings, but the per-file outcome is success (the file is skipped with
exit contribution 0, not an error return). -/
theorem claim2_amended_endianness_skip (b : Buf) (h52 : 52 ≤ b.length)
    (hm : magicOk b = true) (h5 : b.getD 5 0 ≠ 1) :
    parse_buffer b = ⟨0, some .notLittleEndian, []⟩ :=
  parse_buffer_not_le b h52 hm h5

/-- Witness for the amended C2 at the big-endian test buffer. -/
theorem claim2_witness : parse_buffer bufBE = ⟨0, some .notLittleEndian, []⟩ :=
  claim2_amended_endianness_skip bufBE (by decide) (by decide) (by decide)

/-- C10: the data-encoding byte (index 5) is validated before the class
byte (index 4); with valid magic and a non-little-endian encoding byte
the outcome is the endianness diagnostic path, and rewriting the class
byte to any value — including one outside {1, 2} — cannot change the
outcome, so no invalid-class diagnostic is ever produced. -/
theorem claim10_endianness_before_class (b : Buf) (c : Nat) (h52 : 52 ≤ b.length)
    (hm : magicOk b = true) (h5 : b.getD 5 0 ≠ 1) :
    parse_buffer b = ⟨0, some .notLittleEndian, []⟩ ∧
    parse_buffer (b.set 4 c) = parse_buffer b := by
  have hg : ∀ i, i ≠ 4 → (b.set 4 c).getD i 0 = b.getD i 0 := by
    intro i hi
    simp [List.getD_eq_getElem?_getD, List.getElem?_set_ne (by omega : 4 ≠ i)]
  have hm2 : magicOk (b.set 4 c) = true := by
    unfold magicOk at hm ⊢
    rw [hg 0 (by omega), hg 1 (by omega), hg 2 (by omega), hg 3 (by omega)]
    exact hm
  have h1 := parse_buffer_not_le b h52 hm h5
  have h2 := parse_buffer_not_le (b.set 4 c)
    (by rw [List.length_set]; omega) hm2 (by rw [hg 5 (by omega)]; exact h5)
  exact ⟨h1, by rw [h1, h2]⟩

/-- Witness for C10: the big-endian test buffer with its class byte
rewritten to the invalid value 9 yields the same endianness-skip
outcome. -/
theorem claim10_witness :
    parse_buffer bufBE = ⟨0, some .notLittleEndian, []⟩ ∧
    parse_buffer (bufBE.set 4 9) = parse_buffer bufBE :=
  claim10_endianness_before_class bufBE 9 (by decide) (by decide) (by decide)

set_option maxRecDepth 100000 in
/-- C1: the scan's output does not depend on the symbol entries or the
string table.  `bufFoo` is the spec's well-formed scenario — one
NOTYPE/GLOBAL/section-index-0 symbol whose name resolves to `foo` —
while `bufBar` has identical headers but only a defined FUNC symbol
named `bar`; the code emits the identical single `sym:` line (carrying a
section-header field, not a symbol name) on both, because it never walks
symbol entries or reads the string table. -/
theorem claim1_findings_ignore_symbol_bytes :
    parse_buffer bufFoo = ⟨0, none, [1]⟩ ∧
    parse_buffer bufBar = parse_buffer bufFoo := by
  constructor <;> decide

set_option maxRecDepth 100000 in
/-- C4: the section-header-table bounds check is computed in wrapping
64-bit arithmetic, so it does not guarantee that iterated records lie in
the buffer.  In `bufWrap` (`e_shoff = 2 ^ 64 - 64`, `e_shnum = 2`,
200 bytes) the wrapped end is 64 ≤ 200 and the scan proceeds and
succeeds, although the true table end `e_shoff + 64 * e_shnum` and the
true extent of record 1 both lie far outside the buffer. -/
theorem claim4_wraparound_defeats_check :
    tableEndOf elf64 bufWrap ≤ bufWrap.length ∧
    shoffOf elf64 bufWrap + elf64.shdrSize * shnumOf elf64 bufWrap >
      bufWrap.length ∧
    shoffOf elf64 bufWrap + elf64.shdrSize * 1 + elf64.shdrSize >
      bufWrap.length ∧
    parse_buffer bufWrap = ⟨0, none, []⟩ := by
  refine ⟨by decide, by decide, by decide, by decide⟩

set_option maxRecDepth 100000 in
/-- C8 counterexample: in `bufSymWrap` section 1 is a symbol table whose
true `sh_offset + sh_size` (= `2 ^ 64 + 8`) exceeds the 256-byte buffer,
yet the scan does not fail — the wrapped sum is 8, the check passes, and
the file succeeds with the emission for that very section. -/
theorem claim8_counterexample :
    shTypeOf elf64 bufSymWrap (shoffOf elf64 bufSymWrap) 1 = 2 ∧
    shOffsetOf elf64 bufSymWrap (shoffOf elf64 bufSymWrap) 1 +
      shSizeOf elf64 bufSymWrap (shoffOf elf64 bufSymWrap) 1 >
      bufSymWrap.length ∧
    parse_buffer bufSymWrap = ⟨0, none, [1]⟩ := by
  refine ⟨by decide, by decide, by decide⟩

/-- C3: for every buffer the scanner takes past the identification
bytes (valid magic, little-endian, class byte 1 or 2; the loader admits
only buffers of length ≥ 52), the scan fails with the truncated-header
diagnostic — carrying the end byte of the structure and the file size —
exactly when the chosen-width ELF header size exceeds the buffer
length; and in that case the outcome is fixed before any header field
beyond the identification bytes is read: every buffer of the same
length agreeing on the first 16 bytes yields the same result. -/
theorem claim3_truncated_header (b : Buf) (h52 : 52 ≤ b.length)
    (hm : magicOk b = true) (h5 : b.getD 5 0 = 1)
    (hc : b.getD 4 0 = 1 ∨ b.getD 4 0 = 2) :
    (b.length < ehdrSize (b.getD 4 0) ↔
      parse_buffer b =
        ⟨1, some (.truncatedHeader (ehdrSize (b.getD 4 0)) b.length), []⟩)
    ∧ (b.length < ehdrSize (b.getD 4 0) →
        ∀ b2 : Buf, b2.length = b.length →
          (∀ i, i < 16 → b2.getD i 0 = b.getD i 0) →
          parse_buffer b2 = parse_buffer b) := by
  rcases hc with h4 | h4
  · rw [h4]
    have hehdr : ehdrSize 1 = 52 := rfl
    rw [hehdr]
    constructor
    · constructor
      · intro h
        exact absurd h (by omega)
      · intro heq
        exfalso
        have hd := parse_buffer_dispatch b elf32 h52 hm h5 (Or.inl ⟨h4, rfl⟩)
        rw [hd] at heq
        have hdiag : (check_symbols elf32 b).2 =
            some (.truncatedHeader 52 b.length) :=
          congrArg ParseResult.diag heq
        rcases check_symbols_err_shape elf32 b
            (by show (40 : Nat) ≤ b.length; omega) _ hdiag with
          ⟨m, l, hml⟩ | ⟨m, l, hml⟩ <;> exact ScanErr.noConfusion hml
    · intro h
      exact absurd h (by omega)
  · rw [h4]
    have hehdr : ehdrSize 2 = 64 := rfl
    rw [hehdr]
    by_cases hlt : b.length < 64
    · have hd := parse_buffer_dispatch b elf64 h52 hm h5 (Or.inr ⟨h4, rfl⟩)
      have hc64 : check_symbols elf64 b =
          ([], some (.truncatedHeader 64 b.length)) := by
        rw [check_symbols_eq, show elf64.shdrSize = 64 from rfl,
          if_pos (show b.length < 64 from hlt)]
      constructor
      · constructor
        · intro _
          rw [hd, hc64]
          simp
        · intro _
          exact hlt
      · intro _ b2 hlen hag
        have hm2 : magicOk b2 = true := by
          unfold magicOk at hm ⊢
          rw [hag 0 (by omega), hag 1 (by omega), hag 2 (by omega),
            hag 3 (by omega)]
          exact hm
        have h5b : b2.getD 5 0 = 1 := by rw [hag 5 (by omega)]; exact h5
        have h4b : b2.getD 4 0 = 2 := by rw [hag 4 (by omega)]; exact h4
        have hd2 := parse_buffer_dispatch b2 elf64 (by omega) hm2 h5b
          (Or.inr ⟨h4b, rfl⟩)
        have hc64b : check_symbols elf64 b2 =
            ([], some (.truncatedHeader 64 b2.length)) := by
          rw [check_symbols_eq, show elf64.shdrSize = 64 from rfl,
            if_pos (show b2.length < 64 by omega)]
        rw [hd, hd2, hc64, hc64b, hlen]
    · constructor
      · constructor
        · intro h
          exact absurd h hlt
        · intro heq
          exfalso
          have hd := parse_buffer_dispatch b elf64 h52 hm h5 (Or.inr ⟨h4, rfl⟩)
          rw [hd] at heq
          have hdiag : (check_symbols elf64 b).2 =
              some (.truncatedHeader 64 b.length) :=
            congrArg ParseResult.diag heq
          rcases check_symbols_err_shape elf64 b
              (by show (64 : Nat) ≤ b.length; omega) _ hdiag with
            ⟨m, l, hml⟩ | ⟨m, l, hml⟩ <;> exact ScanErr.noConfusion hml
      · intro h
        exact absurd h hlt

set_option maxRecDepth 100000 in
/-- Witness for C3: the 52-byte 64-bit buffer fails with the
truncated-header diagnostic for the 64-byte `Elf64_Ehdr`. -/
theorem claim3_witness :
    parse_buffer bufTrunc = ⟨1, some (.truncatedHeader 64 52), []⟩ := by
  have h := (claim3_truncated_header bufTrunc (by decide) (by decide)
    (by decide) (Or.inr (by decide))).1.mp (by decide)
  exact h

/-- C8 as amended: during section iteration — which starts at index 1,
so the reserved null entry neither fails nor emits — the file fails
with the fatal `Dynamic section would end at` truncation diagnostic
(carrying the computed end byte and the file size, not the section's
index or name) exactly when some symbol-table section among indices
1..`e_shnum`-1 has `(sh_offset + sh_size) % 2 ^ 64` exceeding the
buffer length; the section's data itself is never touched. -/
theorem claim8_amended_symtab_check (b : Buf) (w : ElfWidth)
    (h52 : 52 ≤ b.length) (hm : magicOk b = true) (h5 : b.getD 5 0 = 1)
    (hw : b.getD 4 0 = 1 ∧ w = elf32 ∨ b.getD 4 0 = 2 ∧ w = elf64)
    (h1 : w.shdrSize ≤ b.length) (h2 : tableEndOf w b ≤ b.length) :
    ((∃ m l, (parse_buffer b).diag = some (.truncatedSymbolTable m l) ∧
        (parse_buffer b).exitCode = 1) ↔
      ∃ j, 1 ≤ j ∧ j < shnumOf w b ∧ shTypeOf w b (shoffOf w b) j = 2 ∧
        sectionEndOf w b (shoffOf w b) j > b.length)
    ∧ ∀ j, j ∈ (parse_buffer b).findings → 1 ≤ j := by
  have hd := parse_buffer_dispatch b w h52 hm h5 hw
  obtain ⟨hs1, hs2, hs3⟩ := check_symbols_spec w b h1 h2
  have hdg : (parse_buffer b).diag = (check_symbols w b).2 := by rw [hd]
  have hfd : (parse_buffer b).findings = (check_symbols w b).1 := by rw [hd]
  have hxc : (parse_buffer b).exitCode =
      if (check_symbols w b).2 = none then 0 else 1 := by rw [hd]
  rw [hdg, hfd, hxc]
  constructor
  · constructor
    · rintro ⟨m, l, hml, _⟩
      apply hs1.mp
      rw [hml]
      simp
    · intro hex
      have hne := hs1.mpr hex
      rcases ho : (check_symbols w b).2 with _ | e
      · exact absurd ho hne
      · obtain ⟨m, l, rfl⟩ := hs2 e ho
        exact ⟨m, l, rfl, by simp⟩
  · intro j hj
    exact hs3 j hj

set_option maxRecDepth 100000 in
/-- Witness for the amended C8: the buffer whose symbol-table section
declares bytes 1000..2000 of a 256-byte file fails fatally with the
truncation diagnostic. -/
theorem claim8_witness :
    ∃ m l, (parse_buffer bufSymTrunc).diag =
        some (.truncatedSymbolTable m l) ∧
      (parse_buffer bufSymTrunc).exitCode = 1 :=
  (claim8_amended_symtab_check bufSymTrunc elf64 (by decide) (by decide)
    (by decide) (Or.inr ⟨by decide, rfl⟩) (by decide) (by decide)).1.mpr
    ⟨1, by decide, by decide, by decide, by decide⟩

/-- C9: the scan never modifies the mapped bytes: on every outcome the
buffer handed to the write-back synchronization step is exactly the
original buffer. -/
theorem claim9_sync_writes_back_original (b : Buf) :
    parse_buffer_sync b = (parse_buffer b, b) := by
  unfold parse_buffer_sync parse_buffer
  repeat' split
  all_goals rfl
